import Mathlib

/-!
# Verification of the `WebScraper` crawler (`src/web_scrper.py`)

A shallow embedding of the crawler in `web_scrper.py`.  The Python class
`WebScraper` holds `base_url`, `delay`, a `visited_urls` set and a `data`
list; its `scrape` method runs a FIFO frontier loop, `fetch_page` wraps
`requests.get` (returning `None` on any `RequestException`), `parse_page`
builds a dict of extracted paragraphs/links/emails, and `save_data`
serialises `self.data` to a text file.

External libraries (`requests`, `BeautifulSoup`, `re.findall`,
`urllib.parse.urljoin`) are modelled as abstract inputs: the network is a
function from URL to a response outcome, and the HTML-inspection functions
are bundled in a `Libs` record.  The repository's own logic — the frontier
loop, the truthiness checks, the dict construction, the enqueue filter —
is translated line by line.

A run additionally produces a `trace` of observable events (fetch attempts,
appends to `self.data`, enqueues, `time.sleep` calls) and `obs`, the
snapshots of `(visited_urls, urls_to_visit)` taken at the head of every
`while` iteration, so that temporal and invariant claims can be stated.
-/

namespace WebScraper

/-- Outcome of `requests.get(url, ...)` combined with `raise_for_status()`
as seen by `fetch_page`: either a 2xx response whose body text is `body`,
or a raised `requests.RequestException` (network error, timeout, or
non-2xx status) carrying the message that gets logged. -/
inductive NetResult where
  | ok (body : String)
  | err (msg : String)
deriving DecidableEq

/-- The external HTML/text libraries used by `parse_page`, modelled as
abstract functions of the raw HTML string:
* `pTexts html` — the `p.get_text()` value of each element of
  `soup.find_all('p')`, in document order (BeautifulSoup);
* `hrefs html` — the `href` attribute of each element of
  `soup.find_all('a', href=True)`, in document order (BeautifulSoup);
* `findEmails html` — `re.findall(email_pattern, html)`;
* `urljoin url href` — `urllib.parse.urljoin(url, href)`.
The repository treats these as black boxes; all trimming, filtering,
joining and deduplication done by `parse_page` itself is in the model. -/
structure Libs where
  pTexts : String → List String
  hrefs : String → List String
  findEmails : String → List String
  urljoin : String → String → String

/-- The dict built by `parse_page` (keys `text`, `links`, `emails`) plus
the `url` key that `scrape` assigns afterwards (`page_data['url'] = url`);
`url = none` models the key being absent. -/
structure PageData where
  text : List String
  links : List String
  emails : List String
  url : Option String
deriving DecidableEq

/-- Return value of `parse_page`: the Python function returns the empty
*list* `[]` when `html` is falsy, and a dict otherwise, so its result type
is heterogeneous. -/
inductive ParseResult where
  | emptyList
  | page (d : PageData)
deriving DecidableEq

/-- `True` exactly when a `parse_page` result is a dict (has the
`text`/`links`/`emails` keys), i.e. not the bare empty list. -/
def isRecord : ParseResult → Bool
  | ParseResult.emptyList => false
  | ParseResult.page _ => true

/-- Python `link.startswith(base)`: `base` is a string prefix of `link`.
Modelled on the underlying character lists. -/
def startswith (link base : String) : Bool :=
  base.data.isPrefixOf link.data

/-- `WebScraper.fetch_page` (lines 43-52): issue the GET; on success return
`response.text`, on any `requests.RequestException` log and return `None`.
The header rotation only affects the wire request, not the result. -/
def fetch_page (net : String → NetResult) (url : String) : Option String :=
  match net url with
  | NetResult.ok body => some body
  | NetResult.err _ => none

/-- The dict built by `WebScraper.parse_page` for truthy html
(lines 59-75):
`text = [p.get_text().strip() for p in paragraphs if p.get_text().strip()]`,
`links = [urljoin(url, link['href']) for link in links]`,
`emails = list(set(re.findall(email_pattern, html)))` (the iteration order
of a Python `set` is unspecified; the model deduplicates with
`List.dedup`). -/
def pageDict (lib : Libs) (html : String) (url : String) : PageData :=
  { text := ((lib.pTexts html).map String.trim).filter (fun t => t != "")
    links := (lib.hrefs html).map (fun href => lib.urljoin url href)
    emails := (lib.findEmails html).dedup
    url := none }

/-- `WebScraper.parse_page`, lines 54-57: `if not html: return []`, else
the dict of `pageDict`. -/
def parse_page (lib : Libs) (html : String) (url : String) : ParseResult :=
  if html = "" then ParseResult.emptyList
  else ParseResult.page (pageDict lib html url)

/-- Observable events of one `scrape` run, in program order:
`fetch url` — a fetch attempt is issued (line 90); `save url` — the page's
dict is appended to `self.data` (line 94); `enqueue url` — a link is
appended to `urls_to_visit` (line 99); `sleep s` — `time.sleep(self.delay)`
(line 102). -/
inductive Event where
  | fetch (url : String)
  | save (url : String)
  | enqueue (url : String)
  | sleep (seconds : Nat)
deriving DecidableEq

/-- Result of a `scrape` run: the final `self.visited_urls` (as a list used
with set semantics), the final `self.data`, the event `trace`, and `obs`,
the `(visited_urls, urls_to_visit)` snapshots at each `while`-loop head. -/
structure RunResult where
  visited_urls : List String
  data : List PageData
  trace : List Event
  obs : List (List String × List String)

/-- Lines 96-99 of `scrape`: the links of the parsed page that pass the
enqueue filter `link.startswith(self.base_url) and link not in
self.visited_urls`, in order.  Note the filter does *not* consult
`urls_to_visit`. -/
def newLinks (base_url : String) (visited : List String) (links : List String) : List String :=
  links.filter (fun link => startswith link base_url && !(visited.contains link))

/-- Line 94 of `scrape`: `self.data.append(page_data)` — the store update
is an unconditional append; there is no lookup by URL. -/
def save_record (data : List PageData) (r : PageData) : List PageData :=
  data ++ [r]

/-- The `while urls_to_visit and pages_scraped < max_pages` loop of
`WebScraper.scrape` (lines 82-103), with explicit fuel (the loop provably
terminates; every claim below holds for every amount of fuel, and with
enough fuel the run completes exactly as in Python).  Each iteration:
pop the head URL; skip it if visited; otherwise add it to `visited_urls`,
attempt the fetch, and — only when the result is truthy (not `None` and
not the empty string) — parse, set `page_data['url']`, append to
`self.data`, enqueue the same-site unvisited links, increment
`pages_scraped` and sleep. -/
def scrapeLoop (lib : Libs) (net : String → NetResult) (base_url : String) (delay : Nat)
    (max_pages : Nat) : Nat → List String → List String → List PageData → Nat → RunResult
  | 0, urls, visited, data, _scraped => ⟨visited, data, [], [(visited, urls)]⟩
  | fuel + 1, urls, visited, data, scraped =>
    if scraped < max_pages then
      match urls with
      | [] => ⟨visited, data, [], [(visited, [])]⟩
      | url :: rest =>
        if visited.contains url then
          -- line 84-85: `if url in self.visited_urls: continue`
          let r := scrapeLoop lib net base_url delay max_pages fuel rest visited data scraped
          ⟨r.visited_urls, r.data, r.trace, (visited, url :: rest) :: r.obs⟩
        else
          -- line 87: `self.visited_urls.add(url)` happens before the fetch
          let visited' := url :: visited
          match fetch_page net url with
          | none =>
            -- fetch failed: `if html:` is false; no append, no enqueue,
            -- no counter increment, no sleep — continue with the rest
            let r := scrapeLoop lib net base_url delay max_pages fuel rest visited' data scraped
            ⟨r.visited_urls, r.data, Event.fetch url :: r.trace,
              (visited, url :: rest) :: r.obs⟩
          | some html =>
            if html = "" then
              -- a 2xx response with empty body is also falsy in Python
              let r := scrapeLoop lib net base_url delay max_pages fuel rest visited' data scraped
              ⟨r.visited_urls, r.data, Event.fetch url :: r.trace,
                (visited, url :: rest) :: r.obs⟩
            else
              match parse_page lib html url with
              | ParseResult.emptyList =>
                -- unreachable: `parse_page` returns a dict whenever
                -- `html` is non-empty (here Python would raise a
                -- TypeError at `page_data['url'] = url`)
                let r := scrapeLoop lib net base_url delay max_pages fuel rest visited' data scraped
                ⟨r.visited_urls, r.data, Event.fetch url :: r.trace,
                  (visited, url :: rest) :: r.obs⟩
              | ParseResult.page d0 =>
                let d : PageData := { d0 with url := some url }
                let enq := newLinks base_url visited' d.links
                let r := scrapeLoop lib net base_url delay max_pages fuel (rest ++ enq)
                  visited' (save_record data d) (scraped + 1)
                ⟨r.visited_urls, r.data,
                  Event.fetch url :: Event.save url ::
                    (enq.map Event.enqueue ++ Event.sleep delay :: r.trace),
                  (visited, url :: rest) :: r.obs⟩
    else ⟨visited, data, [], [(visited, urls)]⟩

/-- The mutable attributes set by `WebScraper.__init__` (lines 21-32):
`base_url`, `delay`, `visited_urls` (initially empty), `data` (initially
empty).  `visited_urls` and `data` persist across calls to `scrape`. -/
structure ScraperState where
  base_url : String
  delay : Nat
  visited_urls : List String
  data : List PageData

/-- `WebScraper.__init__(base_url, delay)`. -/
def initScraper (base_url : String) (delay : Nat) : ScraperState :=
  ⟨base_url, delay, [], []⟩

/-- `WebScraper.scrape(max_pages)` (lines 77-104): start the frontier at
`[self.base_url]` with `pages_scraped = 0`, run the loop, and return the
updated instance state together with the run result (the method's return
value is the final `self.data`, i.e. `(scrape ...).2.data`). -/
def scrape (lib : Libs) (net : String → NetResult) (fuel : Nat) (s : ScraperState)
    (max_pages : Nat) : ScraperState × RunResult :=
  let r := scrapeLoop lib net s.base_url s.delay max_pages fuel [s.base_url]
    s.visited_urls s.data 0
  ({ s with visited_urls := r.visited_urls, data := r.data }, r)

/-- One record's serialisation in `WebScraper.save_data` (lines 109-120):
the URL line, then the `Text:`/`Emails:`/`Links:` sections, then the
`=`-rule separator. -/
def formatPage (d : PageData) : String :=
  "URL: " ++ d.url.getD "None" ++ "\n" ++
  "Text:\n" ++ String.join (d.text.map (fun t => "  " ++ t ++ "\n")) ++
  "Emails:\n" ++ String.join (d.emails.map (fun e => "  " ++ e ++ "\n")) ++
  "Links:\n" ++ String.join (d.links.map (fun l => "  " ++ l ++ "\n")) ++
  "\n" ++ String.mk (List.replicate 50 '=') ++ "\n"

/-- `WebScraper.save_data` (lines 106-120): the file is opened with mode
`'w'`, so its previous content is discarded and the new content is a pure
function of the current `self.data`. -/
def save_data (data : List PageData) : String :=
  String.join (data.map formatPage)

/-- URLs of the fetch attempts in a trace, in order. -/
def fetchedUrls (tr : List Event) : List String :=
  tr.filterMap fun e => match e with | Event.fetch u => some u | _ => none

/-- URLs of the enqueue events in a trace, in order. -/
def enqueuedUrls (tr : List Event) : List String :=
  tr.filterMap fun e => match e with | Event.save _ => none | Event.enqueue u => some u | _ => none

/-- Number of `save` events (appends to `self.data`) in a trace; this is
exactly the final value of `pages_scraped`, which is incremented once per
append. -/
def countSaves (tr : List Event) : Nat :=
  tr.countP fun e => match e with | Event.save _ => true | _ => false

/-- Concrete library model for test runs: no paragraphs, no emails, and
`urljoin` returning the href unchanged (all test hrefs are absolute). -/
def noLibs : Libs :=
  ⟨fun _ => [], fun _ => [], fun _ => [], fun _ href => href⟩

/-- Concrete library model: the page whose body is `"R"` carries three
on-site links; every other page has none. -/
def fanLib : Libs :=
  ⟨fun _ => [],
   fun html => if html = "R" then ["b/a", "b/b", "b/c"] else [],
   fun _ => [],
   fun _ href => href⟩

/-- Concrete network: the seed `"b/"` responds with body `"R"`; every other
URL fails with a `RequestException`. -/
def fanNet : String → NetResult := fun u =>
  if u = "b/" then NetResult.ok "R" else NetResult.err "boom"

/-- Concrete library model: the page whose body is `"R"` links to the same
on-site URL `"b/a"` twice. -/
def dupLib : Libs :=
  ⟨fun _ => [],
   fun html => if html = "R" then ["b/a", "b/a"] else [],
   fun _ => [],
   fun _ href => href⟩

/-- Concrete network for the duplicate-link site: seed and `"b/a"` succeed,
everything else fails. -/
def dupNet : String → NetResult := fun u =>
  if u = "b/" then NetResult.ok "R"
  else if u = "b/a" then NetResult.ok "A"
  else NetResult.err "boom"

/-- Check of the spec's frontier invariant on the run's observation
points: at every `while`-loop head, no pending URL is in `visited_urls`
and the pending queue holds no duplicates. -/
def frontierInvariantHolds (obs : List (List String × List String)) : Bool :=
  obs.all fun p => (p.2.all fun u => !(p.1.contains u)) && decide p.2.Nodup

/-- Runs a visited-set simulation over a trace and checks that every
enqueued URL was not in `visited_urls` at the moment it was enqueued
(`visited_urls` grows exactly at fetch events, since line 87 adds the URL
immediately before the fetch of line 90). -/
def enqueueGuardOk : List String → List Event → Bool
  | _, [] => true
  | vis, Event.fetch u :: rest => enqueueGuardOk (u :: vis) rest
  | vis, Event.save _ :: rest => enqueueGuardOk vis rest
  | vis, Event.enqueue u :: rest => !(vis.contains u) && enqueueGuardOk vis rest
  | vis, Event.sleep _ :: rest => enqueueGuardOk vis rest

/-- The claimed rate limit: between every two fetch attempts in the trace
there is at least one sleep.  The flag records whether a fetch has been
seen with no sleep after it yet. -/
def delaySeparated : Bool → List Event → Bool
  | _, [] => true
  | needSleep, Event.fetch _ :: rest => !needSleep && delaySeparated true rest
  | _, Event.sleep _ :: rest => delaySeparated false rest
  | needSleep, Event.save _ :: rest => delaySeparated needSleep rest
  | needSleep, Event.enqueue _ :: rest => delaySeparated needSleep rest

/-- The rate limit the code actually enforces: after every successful page
(marked by its `save` event) a sleep occurs before the next fetch attempt.
The flag records whether a save has been seen with no sleep after it yet. -/
def delayAfterSuccess : Bool → List Event → Bool
  | _, [] => true
  | needSleep, Event.fetch _ :: rest => !needSleep && delayAfterSuccess false rest
  | _, Event.save _ :: rest => delayAfterSuccess true rest
  | _, Event.sleep _ :: rest => delayAfterSuccess false rest
  | needSleep, Event.enqueue _ :: rest => delayAfterSuccess needSleep rest

/-- Every sleep in the trace lasts exactly the configured delay. -/
def sleepsAre (d : Nat) (tr : List Event) : Bool :=
  tr.all fun e => match e with | Event.sleep n => n == d | _ => true

/-- The claimed step order: once a page's record has been saved, no enqueue
happens until the next fetch attempt (true iff discovery precedes
persistence in every step).  The flag records "the last fetch/save event
seen was a save". -/
def noEnqueueAfterSave : Bool → List Event → Bool
  | _, [] => true
  | _, Event.save _ :: rest => noEnqueueAfterSave true rest
  | _, Event.fetch _ :: rest => noEnqueueAfterSave false rest
  | afterSave, Event.enqueue _ :: rest => !afterSave && noEnqueueAfterSave afterSave rest
  | afterSave, Event.sleep _ :: rest => noEnqueueAfterSave afterSave rest

/-- The step order the code actually follows: between a fetch attempt and
the save of its page no enqueue happens (true iff persistence precedes
discovery in every step).  The flag records "the last fetch/save event
seen was a fetch". -/
def saveBeforeEnqueues : Bool → List Event → Bool
  | _, [] => true
  | _, Event.fetch _ :: rest => saveBeforeEnqueues true rest
  | _, Event.save _ :: rest => saveBeforeEnqueues false rest
  | afterFetch, Event.enqueue _ :: rest => !afterFetch && saveBeforeEnqueues afterFetch rest
  | afterFetch, Event.sleep _ :: rest => saveBeforeEnqueues afterFetch rest

/-- The URLs under which records are stored (`None` standing for a record
without a `url` key). -/
def storeUrls (data : List PageData) : List (Option String) :=
  data.map PageData.url

/-! ## Basic membership helpers -/

theorem contains_true {l : List String} {a : String} (h : l.contains a = true) : a ∈ l :=
  List.elem_iff.mp h

theorem contains_false {l : List String} {a : String} (h : l.contains a = false) : a ∉ l := by
  intro hm
  have ht : l.contains a = true := List.elem_iff.mpr hm
  rw [ht] at h
  cases h

theorem mem_newLinks {base_url : String} {visited links : List String} {l : String}
    (h : l ∈ newLinks base_url visited links) :
    startswith l base_url = true ∧ visited.contains l = false := by
  have h2 := (List.mem_filter.mp h).2
  rw [Bool.and_eq_true] at h2
  exact ⟨h2.1, (Bool.not_eq_true' (visited.contains l)) ▸ h2.2⟩

theorem mem_newLinks_not_mem {base_url : String} {visited links : List String} {l : String}
    (h : l ∈ newLinks base_url visited links) : l ∉ visited :=
  contains_false (mem_newLinks h).2

/-! ## Trace projections over the step segments emitted by the loop -/

theorem fetchedUrls_fetch (u : String) (tr : List Event) :
    fetchedUrls (Event.fetch u :: tr) = u :: fetchedUrls tr := by
  simp [fetchedUrls, List.filterMap_cons]

theorem fetchedUrls_save (u : String) (tr : List Event) :
    fetchedUrls (Event.save u :: tr) = fetchedUrls tr := by
  simp [fetchedUrls, List.filterMap_cons]

theorem fetchedUrls_sleep (n : Nat) (tr : List Event) :
    fetchedUrls (Event.sleep n :: tr) = fetchedUrls tr := by
  simp [fetchedUrls, List.filterMap_cons]

theorem fetchedUrls_enqueues (ls : List String) (tr : List Event) :
    fetchedUrls (ls.map Event.enqueue ++ tr) = fetchedUrls tr := by
  induction ls with
  | nil => rfl
  | cons x xs ih =>
    simp [fetchedUrls, List.filterMap_cons]

theorem enqueuedUrls_fetch (u : String) (tr : List Event) :
    enqueuedUrls (Event.fetch u :: tr) = enqueuedUrls tr := by
  simp [enqueuedUrls, List.filterMap_cons]

theorem enqueuedUrls_save (u : String) (tr : List Event) :
    enqueuedUrls (Event.save u :: tr) = enqueuedUrls tr := by
  simp [enqueuedUrls, List.filterMap_cons]

theorem enqueuedUrls_sleep (n : Nat) (tr : List Event) :
    enqueuedUrls (Event.sleep n :: tr) = enqueuedUrls tr := by
  simp [enqueuedUrls, List.filterMap_cons]

theorem enqueuedUrls_enqueues (ls : List String) (tr : List Event) :
    enqueuedUrls (ls.map Event.enqueue ++ tr) = ls ++ enqueuedUrls tr := by
  induction ls with
  | nil => rfl
  | cons x xs ih =>
    simpa [enqueuedUrls, List.filterMap_cons] using ih

theorem countSaves_fetch (u : String) (tr : List Event) :
    countSaves (Event.fetch u :: tr) = countSaves tr := by
  simp [countSaves, List.countP_cons]

theorem countSaves_save (u : String) (tr : List Event) :
    countSaves (Event.save u :: tr) = countSaves tr + 1 := by
  simp [countSaves, List.countP_cons]

theorem countSaves_sleep (n : Nat) (tr : List Event) :
    countSaves (Event.sleep n :: tr) = countSaves tr := by
  simp [countSaves, List.countP_cons]

theorem countSaves_enqueues (ls : List String) (tr : List Event) :
    countSaves (ls.map Event.enqueue ++ tr) = countSaves tr := by
  induction ls with
  | nil => rfl
  | cons x xs ih =>
    simp [countSaves, List.countP_cons]

theorem enqueueGuardOk_enqueues {vis : List String} {ls : List String} {tr : List Event}
    (h : ∀ l ∈ ls, vis.contains l = false) :
    enqueueGuardOk vis (ls.map Event.enqueue ++ tr) = enqueueGuardOk vis tr := by
  induction ls with
  | nil => rfl
  | cons x xs ih =>
    have hx := h x (List.mem_cons_self x xs)
    have ih2 := ih (fun l hl => h l (List.mem_cons_of_mem x hl))
    simp only [List.map_cons, List.cons_append, enqueueGuardOk, hx, Bool.not_false,
      Bool.true_and, List.append_eq, ih2]

theorem delayAfterSuccess_enqueues (b : Bool) (ls : List String) (tr : List Event) :
    delayAfterSuccess b (ls.map Event.enqueue ++ tr) = delayAfterSuccess b tr := by
  induction ls with
  | nil => rfl
  | cons x xs ih => simpa [delayAfterSuccess] using ih

theorem saveBeforeEnqueues_enqueues (ls : List String) (tr : List Event) :
    saveBeforeEnqueues false (ls.map Event.enqueue ++ tr) = saveBeforeEnqueues false tr := by
  induction ls with
  | nil => rfl
  | cons x xs ih => simpa [saveBeforeEnqueues] using ih

theorem sleepsAre_enqueues (d : Nat) (ls : List String) (tr : List Event) :
    sleepsAre d (ls.map Event.enqueue ++ tr) = sleepsAre d tr := by
  induction ls with
  | nil => rfl
  | cons x xs ih =>
    simp [sleepsAre]

/-! ## Step equations of the loop -/

theorem scrapeLoop_zero (lib : Libs) (net : String → NetResult) (base_url : String)
    (delay max_pages : Nat) (urls visited : List String) (data : List PageData)
    (scraped : Nat) :
    scrapeLoop lib net base_url delay max_pages 0 urls visited data scraped =
      ⟨visited, data, [], [(visited, urls)]⟩ := rfl

theorem scrapeLoop_done (lib : Libs) (net : String → NetResult) (base_url : String)
    (delay max_pages fuel : Nat) (urls visited : List String) (data : List PageData)
    (scraped : Nat) (hs : ¬ scraped < max_pages) :
    scrapeLoop lib net base_url delay max_pages (fuel + 1) urls visited data scraped =
      ⟨visited, data, [], [(visited, urls)]⟩ := by
  simp only [scrapeLoop, if_neg hs]

theorem scrapeLoop_nil (lib : Libs) (net : String → NetResult) (base_url : String)
    (delay max_pages fuel : Nat) (visited : List String) (data : List PageData)
    (scraped : Nat) :
    scrapeLoop lib net base_url delay max_pages fuel [] visited data scraped =
      ⟨visited, data, [], [(visited, [])]⟩ := by
  cases fuel with
  | zero => rfl
  | succ n =>
    by_cases hs : scraped < max_pages
    · simp only [scrapeLoop, if_pos hs]
    · simp only [scrapeLoop, if_neg hs]

theorem scrapeLoop_skip (lib : Libs) (net : String → NetResult) (base_url : String)
    (delay max_pages fuel : Nat) (url : String) (rest visited : List String)
    (data : List PageData) (scraped : Nat) (hs : scraped < max_pages)
    (hv : url ∈ visited) :
    scrapeLoop lib net base_url delay max_pages (fuel + 1) (url :: rest) visited data scraped =
      ⟨(scrapeLoop lib net base_url delay max_pages fuel rest visited data scraped).visited_urls,
       (scrapeLoop lib net base_url delay max_pages fuel rest visited data scraped).data,
       (scrapeLoop lib net base_url delay max_pages fuel rest visited data scraped).trace,
       (visited, url :: rest) ::
         (scrapeLoop lib net base_url delay max_pages fuel rest visited data scraped).obs⟩ := by
  simp [scrapeLoop, hs, hv]

theorem scrapeLoop_fail (lib : Libs) (net : String → NetResult) (base_url : String)
    (delay max_pages fuel : Nat) (url : String) (rest visited : List String)
    (data : List PageData) (scraped : Nat) (hs : scraped < max_pages)
    (hv : url ∉ visited) (hf : fetch_page net url = none) :
    scrapeLoop lib net base_url delay max_pages (fuel + 1) (url :: rest) visited data scraped =
      ⟨(scrapeLoop lib net base_url delay max_pages fuel rest (url :: visited) data
          scraped).visited_urls,
       (scrapeLoop lib net base_url delay max_pages fuel rest (url :: visited) data scraped).data,
       Event.fetch url ::
         (scrapeLoop lib net base_url delay max_pages fuel rest (url :: visited) data
           scraped).trace,
       (visited, url :: rest) ::
         (scrapeLoop lib net base_url delay max_pages fuel rest (url :: visited) data
           scraped).obs⟩ := by
  simp [scrapeLoop, hs, hv, hf]

theorem scrapeLoop_emptyBody (lib : Libs) (net : String → NetResult) (base_url : String)
    (delay max_pages fuel : Nat) (url : String) (rest visited : List String)
    (data : List PageData) (scraped : Nat) (hs : scraped < max_pages)
    (hv : url ∉ visited) (hf : fetch_page net url = some "") :
    scrapeLoop lib net base_url delay max_pages (fuel + 1) (url :: rest) visited data scraped =
      ⟨(scrapeLoop lib net base_url delay max_pages fuel rest (url :: visited) data
          scraped).visited_urls,
       (scrapeLoop lib net base_url delay max_pages fuel rest (url :: visited) data scraped).data,
       Event.fetch url ::
         (scrapeLoop lib net base_url delay max_pages fuel rest (url :: visited) data
           scraped).trace,
       (visited, url :: rest) ::
         (scrapeLoop lib net base_url delay max_pages fuel rest (url :: visited) data
           scraped).obs⟩ := by
  simp [scrapeLoop, hs, hv, hf]

theorem scrapeLoop_success (lib : Libs) (net : String → NetResult) (base_url : String)
    (delay max_pages fuel : Nat) (url html : String) (rest visited : List String)
    (data : List PageData) (scraped : Nat) (hs : scraped < max_pages)
    (hv : url ∉ visited) (hf : fetch_page net url = some html)
    (hh : html ≠ "") :
    scrapeLoop lib net base_url delay max_pages (fuel + 1) (url :: rest) visited data scraped =
      (let d : PageData := { pageDict lib html url with url := some url }
       let enq := newLinks base_url (url :: visited) d.links
       let r := scrapeLoop lib net base_url delay max_pages fuel (rest ++ enq) (url :: visited)
         (save_record data d) (scraped + 1)
       ⟨r.visited_urls, r.data,
        Event.fetch url :: Event.save url ::
          (enq.map Event.enqueue ++ Event.sleep delay :: r.trace),
        (visited, url :: rest) :: r.obs⟩) := by
  simp [scrapeLoop, hs, hv, hf, parse_page, hh]

/-! ## Fetch soundness: visited-set growth and at-most-once fetching -/

/-- Relation between a run result and the visited set at loop entry:
the entry visited set survives into the final one, every fetched URL was
unvisited at entry and visited at exit, and no URL is fetched twice. -/
def fetchSound (visited0 : List String) (r : RunResult) : Prop :=
  (∀ u, u ∈ visited0 → u ∈ r.visited_urls) ∧
  (∀ u, u ∈ fetchedUrls r.trace → u ∉ visited0 ∧ u ∈ r.visited_urls) ∧
  (fetchedUrls r.trace).Nodup

theorem fetchSound_base (visited : List String) (data : List PageData)
    (obs2 : List (List String × List String)) :
    fetchSound visited ⟨visited, data, [], obs2⟩ := by
  refine ⟨fun u hu => hu, fun u hu => ?_, by simp [fetchedUrls]⟩
  simp [fetchedUrls] at hu

theorem fetchSound_failStep {visited : List String} {url : String} {r : RunResult}
    {obs2 : List (List String × List String)}
    (hv : url ∉ visited) (h : fetchSound (url :: visited) r) :
    fetchSound visited ⟨r.visited_urls, r.data, Event.fetch url :: r.trace, obs2⟩ := by
  obtain ⟨a, b, c⟩ := h
  refine ⟨fun u hu => a u (List.mem_cons_of_mem url hu), fun u hu => ?_, ?_⟩
  · rw [show fetchedUrls (Event.fetch url :: r.trace) = url :: fetchedUrls r.trace from
      fetchedUrls_fetch url r.trace] at hu
    rcases List.mem_cons.mp hu with rfl | h2
    · exact ⟨hv, a u (List.mem_cons_self u visited)⟩
    · obtain ⟨hb1, hb2⟩ := b u h2
      exact ⟨fun hm => hb1 (List.mem_cons_of_mem url hm), hb2⟩
  · rw [show fetchedUrls (Event.fetch url :: r.trace) = url :: fetchedUrls r.trace from
      fetchedUrls_fetch url r.trace]
    refine List.nodup_cons.mpr ⟨fun hm => ?_, c⟩
    exact (b url hm).1 (List.mem_cons_self url visited)

theorem fetchSound_successStep {visited : List String} {url : String} {enq : List String}
    {delay : Nat} {r : RunResult} {obs2 : List (List String × List String)}
    (hv : url ∉ visited) (h : fetchSound (url :: visited) r) :
    fetchSound visited
      ⟨r.visited_urls, r.data,
       Event.fetch url :: Event.save url ::
         (enq.map Event.enqueue ++ Event.sleep delay :: r.trace),
       obs2⟩ := by
  have hseg : fetchedUrls
      (Event.fetch url :: Event.save url ::
        (enq.map Event.enqueue ++ Event.sleep delay :: r.trace)) =
      url :: fetchedUrls r.trace := by
    rw [fetchedUrls_fetch, fetchedUrls_save, fetchedUrls_enqueues, fetchedUrls_sleep]
  obtain ⟨a, b, c⟩ := h
  refine ⟨fun u hu => a u (List.mem_cons_of_mem url hu), fun u hu => ?_, ?_⟩
  · rw [hseg] at hu
    rcases List.mem_cons.mp hu with rfl | h2
    · exact ⟨hv, a u (List.mem_cons_self u visited)⟩
    · obtain ⟨hb1, hb2⟩ := b u h2
      exact ⟨fun hm => hb1 (List.mem_cons_of_mem url hm), hb2⟩
  · rw [hseg]
    refine List.nodup_cons.mpr ⟨fun hm => ?_, c⟩
    exact (b url hm).1 (List.mem_cons_self url visited)

theorem scrapeLoop_fetchSound (lib : Libs) (net : String → NetResult) (base_url : String)
    (delay max_pages : Nat) :
    ∀ fuel urls visited data scraped,
      fetchSound visited (scrapeLoop lib net base_url delay max_pages fuel urls visited data scraped) := by
  intro fuel
  induction fuel with
  | zero =>
    intro urls visited data scraped
    rw [scrapeLoop_zero]
    exact fetchSound_base visited data _
  | succ n ih =>
    intro urls visited data scraped
    by_cases hs : scraped < max_pages
    · cases urls with
      | nil =>
        rw [scrapeLoop_nil]
        exact fetchSound_base visited data _
      | cons url rest =>
        by_cases hv : url ∈ visited
        · rw [scrapeLoop_skip lib net base_url delay max_pages n url rest visited data
            scraped hs hv]
          exact ih rest visited data scraped
        · cases hf : fetch_page net url with
          | none =>
            rw [scrapeLoop_fail lib net base_url delay max_pages n url rest visited data
              scraped hs hv hf]
            exact fetchSound_failStep hv (ih rest (url :: visited) data scraped)
          | some html =>
            by_cases hh : html = ""
            · subst hh
              rw [scrapeLoop_emptyBody lib net base_url delay max_pages n url rest visited
                data scraped hs hv hf]
              exact fetchSound_failStep hv (ih rest (url :: visited) data scraped)
            · rw [scrapeLoop_success lib net base_url delay max_pages n url html rest visited
                data scraped hs hv hf hh]
              exact fetchSound_successStep hv (ih _ _ _ _)
    · rw [scrapeLoop_done lib net base_url delay max_pages n urls visited data scraped hs]
      exact fetchSound_base visited data _

/-! ## Enqueue guard: a visited link is never enqueued -/

theorem enqueueGuardOk_successSeg {visited : List String} {url : String} {enq : List String}
    {delay : Nat} {tr : List Event}
    (henq : ∀ l ∈ enq, (url :: visited).contains l = false) :
    enqueueGuardOk visited
      (Event.fetch url :: Event.save url ::
        (enq.map Event.enqueue ++ Event.sleep delay :: tr)) =
      enqueueGuardOk (url :: visited) tr := by
  simp only [enqueueGuardOk]
  rw [enqueueGuardOk_enqueues henq]
  simp only [enqueueGuardOk]

theorem scrapeLoop_enqueueGuard (lib : Libs) (net : String → NetResult) (base_url : String)
    (delay max_pages : Nat) :
    ∀ fuel urls visited data scraped,
      enqueueGuardOk visited
        (scrapeLoop lib net base_url delay max_pages fuel urls visited data scraped).trace =
        true := by
  intro fuel
  induction fuel with
  | zero => intro urls visited data scraped; rfl
  | succ n ih =>
    intro urls visited data scraped
    by_cases hs : scraped < max_pages
    · cases urls with
      | nil => rw [scrapeLoop_nil]; rfl
      | cons url rest =>
        by_cases hv : url ∈ visited
        · rw [scrapeLoop_skip lib net base_url delay max_pages n url rest visited data
            scraped hs hv]
          exact ih rest visited data scraped
        · cases hf : fetch_page net url with
          | none =>
            rw [scrapeLoop_fail lib net base_url delay max_pages n url rest visited data
              scraped hs hv hf]
            exact ih rest (url :: visited) data scraped
          | some html =>
            by_cases hh : html = ""
            · subst hh
              rw [scrapeLoop_emptyBody lib net base_url delay max_pages n url rest visited
                data scraped hs hv hf]
              exact ih rest (url :: visited) data scraped
            · rw [scrapeLoop_success lib net base_url delay max_pages n url html rest visited
                data scraped hs hv hf hh]
              exact (enqueueGuardOk_successSeg (fun l hl => (mem_newLinks hl).2)).trans
                (ih _ _ _ _)
    · rw [scrapeLoop_done lib net base_url delay max_pages n urls visited data scraped hs]
      rfl

/-! ## Same-site scoping of enqueued links -/

theorem enqueuedUrls_successSeg (url : String) (enq : List String) (delay : Nat)
    (tr : List Event) :
    enqueuedUrls
      (Event.fetch url :: Event.save url ::
        (enq.map Event.enqueue ++ Event.sleep delay :: tr)) =
      enq ++ enqueuedUrls tr := by
  rw [enqueuedUrls_fetch, enqueuedUrls_save, enqueuedUrls_enqueues, enqueuedUrls_sleep]

theorem scrapeLoop_sameSite (lib : Libs) (net : String → NetResult) (base_url : String)
    (delay max_pages : Nat) :
    ∀ fuel urls visited data scraped,
      ∀ u ∈ enqueuedUrls
          (scrapeLoop lib net base_url delay max_pages fuel urls visited data scraped).trace,
        startswith u base_url = true := by
  intro fuel
  induction fuel with
  | zero =>
    intro urls visited data scraped u hu
    rw [scrapeLoop_zero] at hu
    simp [enqueuedUrls] at hu
  | succ n ih =>
    intro urls visited data scraped
    by_cases hs : scraped < max_pages
    · cases urls with
      | nil =>
        intro u hu
        rw [scrapeLoop_nil] at hu
        simp [enqueuedUrls] at hu
      | cons url rest =>
        by_cases hv : url ∈ visited
        · rw [scrapeLoop_skip lib net base_url delay max_pages n url rest visited data
            scraped hs hv]
          exact ih rest visited data scraped
        · cases hf : fetch_page net url with
          | none =>
            rw [scrapeLoop_fail lib net base_url delay max_pages n url rest visited data
              scraped hs hv hf]
            intro u hu
            rw [enqueuedUrls_fetch] at hu
            exact ih rest (url :: visited) data scraped u hu
          | some html =>
            by_cases hh : html = ""
            · subst hh
              rw [scrapeLoop_emptyBody lib net base_url delay max_pages n url rest visited
                data scraped hs hv hf]
              intro u hu
              rw [enqueuedUrls_fetch] at hu
              exact ih rest (url :: visited) data scraped u hu
            · rw [scrapeLoop_success lib net base_url delay max_pages n url html rest visited
                data scraped hs hv hf hh]
              intro u hu
              rw [enqueuedUrls_successSeg] at hu
              rcases List.mem_append.mp hu with h1 | h2
              · exact (mem_newLinks h1).1
              · exact ih _ _ _ _ u h2
    · intro u hu
      rw [scrapeLoop_done lib net base_url delay max_pages n urls visited data scraped hs] at hu
      simp [enqueuedUrls] at hu

/-! ## Budget: one counter increment per save -/

theorem countSaves_successSeg (url : String) (enq : List String) (delay : Nat)
    (tr : List Event) :
    countSaves
      (Event.fetch url :: Event.save url ::
        (enq.map Event.enqueue ++ Event.sleep delay :: tr)) =
      countSaves tr + 1 := by
  rw [countSaves_fetch, countSaves_save, countSaves_enqueues, countSaves_sleep]

theorem scrapeLoop_countSaves (lib : Libs) (net : String → NetResult) (base_url : String)
    (delay max_pages : Nat) :
    ∀ fuel urls visited data scraped,
      countSaves
        (scrapeLoop lib net base_url delay max_pages fuel urls visited data scraped).trace ≤
        max_pages - scraped := by
  intro fuel
  induction fuel with
  | zero =>
    intro urls visited data scraped
    rw [scrapeLoop_zero]
    simp [countSaves]
  | succ n ih =>
    intro urls visited data scraped
    by_cases hs : scraped < max_pages
    · cases urls with
      | nil =>
        rw [scrapeLoop_nil]
        simp [countSaves]
      | cons url rest =>
        by_cases hv : url ∈ visited
        · rw [scrapeLoop_skip lib net base_url delay max_pages n url rest visited data
            scraped hs hv]
          exact ih rest visited data scraped
        · cases hf : fetch_page net url with
          | none =>
            rw [scrapeLoop_fail lib net base_url delay max_pages n url rest visited data
              scraped hs hv hf]
            have h2 := ih rest (url :: visited) data scraped
            calc countSaves (Event.fetch url ::
                  (scrapeLoop lib net base_url delay max_pages n rest (url :: visited) data
                    scraped).trace) =
                countSaves (scrapeLoop lib net base_url delay max_pages n rest (url :: visited)
                  data scraped).trace := countSaves_fetch _ _
              _ ≤ max_pages - scraped := h2
          | some html =>
            by_cases hh : html = ""
            · subst hh
              rw [scrapeLoop_emptyBody lib net base_url delay max_pages n url rest visited
                data scraped hs hv hf]
              have h2 := ih rest (url :: visited) data scraped
              calc countSaves (Event.fetch url ::
                    (scrapeLoop lib net base_url delay max_pages n rest (url :: visited) data
                      scraped).trace) =
                  countSaves (scrapeLoop lib net base_url delay max_pages n rest (url :: visited)
                    data scraped).trace := countSaves_fetch _ _
                _ ≤ max_pages - scraped := h2
            · rw [scrapeLoop_success lib net base_url delay max_pages n url html rest visited
                data scraped hs hv hf hh]
              have h2 := ih
                (rest ++ newLinks base_url (url :: visited)
                  (PageData.links { pageDict lib html url with url := some url }))
                (url :: visited)
                (save_record data { pageDict lib html url with url := some url })
                (scraped + 1)
              have h3 := countSaves_successSeg url
                (newLinks base_url (url :: visited)
                  (PageData.links { pageDict lib html url with url := some url }))
                delay
                (scrapeLoop lib net base_url delay max_pages n
                  (rest ++ newLinks base_url (url :: visited)
                    (PageData.links { pageDict lib html url with url := some url }))
                  (url :: visited)
                  (save_record data { pageDict lib html url with url := some url })
                  (scraped + 1)).trace
              rw [h3]
              omega
    · rw [scrapeLoop_done lib net base_url delay max_pages n urls visited data scraped hs]
      simp [countSaves]

/-! ## The delay the code enforces: a sleep after every save -/

theorem delayAfterSuccess_successSeg (url : String) (enq : List String) (delay : Nat)
    (tr : List Event) :
    delayAfterSuccess false
      (Event.fetch url :: Event.save url ::
        (enq.map Event.enqueue ++ Event.sleep delay :: tr)) =
      delayAfterSuccess false tr := by
  simp only [delayAfterSuccess, Bool.not_false, Bool.true_and]
  rw [delayAfterSuccess_enqueues]
  simp only [delayAfterSuccess]

theorem scrapeLoop_delayAfterSuccess (lib : Libs) (net : String → NetResult)
    (base_url : String) (delay max_pages : Nat) :
    ∀ fuel urls visited data scraped,
      delayAfterSuccess false
        (scrapeLoop lib net base_url delay max_pages fuel urls visited data scraped).trace =
        true := by
  intro fuel
  induction fuel with
  | zero => intro urls visited data scraped; rfl
  | succ n ih =>
    intro urls visited data scraped
    by_cases hs : scraped < max_pages
    · cases urls with
      | nil => rw [scrapeLoop_nil]; rfl
      | cons url rest =>
        by_cases hv : url ∈ visited
        · rw [scrapeLoop_skip lib net base_url delay max_pages n url rest visited data
            scraped hs hv]
          exact ih rest visited data scraped
        · cases hf : fetch_page net url with
          | none =>
            rw [scrapeLoop_fail lib net base_url delay max_pages n url rest visited data
              scraped hs hv hf]
            have h2 := ih rest (url :: visited) data scraped
            calc delayAfterSuccess false (Event.fetch url ::
                  (scrapeLoop lib net base_url delay max_pages n rest (url :: visited) data
                    scraped).trace) =
                delayAfterSuccess false (scrapeLoop lib net base_url delay max_pages n rest
                  (url :: visited) data scraped).trace := by
                  simp only [delayAfterSuccess, Bool.not_false, Bool.true_and]
              _ = true := h2
          | some html =>
            by_cases hh : html = ""
            · subst hh
              rw [scrapeLoop_emptyBody lib net base_url delay max_pages n url rest visited
                data scraped hs hv hf]
              have h2 := ih rest (url :: visited) data scraped
              calc delayAfterSuccess false (Event.fetch url ::
                    (scrapeLoop lib net base_url delay max_pages n rest (url :: visited) data
                      scraped).trace) =
                  delayAfterSuccess false (scrapeLoop lib net base_url delay max_pages n rest
                    (url :: visited) data scraped).trace := by
                    simp only [delayAfterSuccess, Bool.not_false, Bool.true_and]
                _ = true := h2
            · rw [scrapeLoop_success lib net base_url delay max_pages n url html rest visited
                data scraped hs hv hf hh]
              exact (delayAfterSuccess_successSeg url _ delay _).trans (ih _ _ _ _)
    · rw [scrapeLoop_done lib net base_url delay max_pages n urls visited data scraped hs]
      rfl

/-! ## Every sleep lasts exactly the configured delay -/

theorem sleepsAre_fetch (d : Nat) (u : String) (tr : List Event) :
    sleepsAre d (Event.fetch u :: tr) = sleepsAre d tr := by
  simp [sleepsAre]

theorem sleepsAre_save (d : Nat) (u : String) (tr : List Event) :
    sleepsAre d (Event.save u :: tr) = sleepsAre d tr := by
  simp [sleepsAre]

theorem sleepsAre_sleep_self (d : Nat) (tr : List Event) :
    sleepsAre d (Event.sleep d :: tr) = sleepsAre d tr := by
  simp [sleepsAre]

theorem scrapeLoop_sleepsAre (lib : Libs) (net : String → NetResult) (base_url : String)
    (delay max_pages : Nat) :
    ∀ fuel urls visited data scraped,
      sleepsAre delay
        (scrapeLoop lib net base_url delay max_pages fuel urls visited data scraped).trace =
        true := by
  intro fuel
  induction fuel with
  | zero => intro urls visited data scraped; rfl
  | succ n ih =>
    intro urls visited data scraped
    by_cases hs : scraped < max_pages
    · cases urls with
      | nil => rw [scrapeLoop_nil]; rfl
      | cons url rest =>
        by_cases hv : url ∈ visited
        · rw [scrapeLoop_skip lib net base_url delay max_pages n url rest visited data
            scraped hs hv]
          exact ih rest visited data scraped
        · cases hf : fetch_page net url with
          | none =>
            rw [scrapeLoop_fail lib net base_url delay max_pages n url rest visited data
              scraped hs hv hf]
            exact (sleepsAre_fetch delay url _).trans (ih rest (url :: visited) data scraped)
          | some html =>
            by_cases hh : html = ""
            · subst hh
              rw [scrapeLoop_emptyBody lib net base_url delay max_pages n url rest visited
                data scraped hs hv hf]
              exact (sleepsAre_fetch delay url _).trans (ih rest (url :: visited) data scraped)
            · rw [scrapeLoop_success lib net base_url delay max_pages n url html rest visited
                data scraped hs hv hf hh]
              rw [sleepsAre_fetch, sleepsAre_save, sleepsAre_enqueues, sleepsAre_sleep_self]
              exact ih _ _ _ _
    · rw [scrapeLoop_done lib net base_url delay max_pages n urls visited data scraped hs]
      rfl

/-! ## Persistence happens before discovery in every step -/

theorem saveBeforeEnqueues_successSeg (b : Bool) (url : String) (enq : List String)
    (delay : Nat) (tr : List Event) :
    saveBeforeEnqueues b
      (Event.fetch url :: Event.save url ::
        (enq.map Event.enqueue ++ Event.sleep delay :: tr)) =
      saveBeforeEnqueues false tr := by
  simp only [saveBeforeEnqueues]
  rw [saveBeforeEnqueues_enqueues]
  simp only [saveBeforeEnqueues]

theorem scrapeLoop_saveBeforeEnqueues (lib : Libs) (net : String → NetResult)
    (base_url : String) (delay max_pages : Nat) :
    ∀ fuel urls visited data scraped b,
      saveBeforeEnqueues b
        (scrapeLoop lib net base_url delay max_pages fuel urls visited data scraped).trace =
        true := by
  intro fuel
  induction fuel with
  | zero => intro urls visited data scraped b; rfl
  | succ n ih =>
    intro urls visited data scraped b
    by_cases hs : scraped < max_pages
    · cases urls with
      | nil => rw [scrapeLoop_nil]; rfl
      | cons url rest =>
        by_cases hv : url ∈ visited
        · rw [scrapeLoop_skip lib net base_url delay max_pages n url rest visited data
            scraped hs hv]
          exact ih rest visited data scraped b
        · cases hf : fetch_page net url with
          | none =>
            rw [scrapeLoop_fail lib net base_url delay max_pages n url rest visited data
              scraped hs hv hf]
            exact ih rest (url :: visited) data scraped true
          | some html =>
            by_cases hh : html = ""
            · subst hh
              rw [scrapeLoop_emptyBody lib net base_url delay max_pages n url rest visited
                data scraped hs hv hf]
              exact ih rest (url :: visited) data scraped true
            · rw [scrapeLoop_success lib net base_url delay max_pages n url html rest visited
                data scraped hs hv hf hh]
              exact (saveBeforeEnqueues_successSeg b url _ delay _).trans (ih _ _ _ _ false)
    · rw [scrapeLoop_done lib net base_url delay max_pages n urls visited data scraped hs]
      rfl

/-! ## The store never holds two records for the same URL -/

theorem scrapeLoop_store (lib : Libs) (net : String → NetResult) (base_url : String)
    (delay max_pages : Nat) :
    ∀ fuel urls visited data scraped,
      (∀ pd ∈ data, ∃ u, pd.url = some u ∧ u ∈ visited) →
      (storeUrls data).Nodup →
      (∀ pd ∈ (scrapeLoop lib net base_url delay max_pages fuel urls visited data scraped).data,
        ∃ u, pd.url = some u ∧
          u ∈ (scrapeLoop lib net base_url delay max_pages fuel urls visited data
            scraped).visited_urls) ∧
      (storeUrls
        (scrapeLoop lib net base_url delay max_pages fuel urls visited data scraped).data).Nodup := by
  intro fuel
  induction fuel with
  | zero =>
    intro urls visited data scraped hd hn
    rw [scrapeLoop_zero]
    exact ⟨hd, hn⟩
  | succ n ih =>
    intro urls visited data scraped hd hn
    by_cases hs : scraped < max_pages
    · cases urls with
      | nil =>
        rw [scrapeLoop_nil]
        exact ⟨hd, hn⟩
      | cons url rest =>
        by_cases hv : url ∈ visited
        · rw [scrapeLoop_skip lib net base_url delay max_pages n url rest visited data
            scraped hs hv]
          exact ih rest visited data scraped hd hn
        · have hd2 : ∀ pd ∈ data, ∃ u, pd.url = some u ∧ u ∈ url :: visited := by
            intro pd hpd
            obtain ⟨u, h1, h2⟩ := hd pd hpd
            exact ⟨u, h1, List.mem_cons_of_mem url h2⟩
          cases hf : fetch_page net url with
          | none =>
            rw [scrapeLoop_fail lib net base_url delay max_pages n url rest visited data
              scraped hs hv hf]
            exact ih rest (url :: visited) data scraped hd2 hn
          | some html =>
            by_cases hh : html = ""
            · subst hh
              rw [scrapeLoop_emptyBody lib net base_url delay max_pages n url rest visited
                data scraped hs hv hf]
              exact ih rest (url :: visited) data scraped hd2 hn
            · rw [scrapeLoop_success lib net base_url delay max_pages n url html rest visited
                data scraped hs hv hf hh]
              refine ih _ (url :: visited) _ (scraped + 1) ?_ ?_
              · intro pd hpd
                rcases List.mem_append.mp hpd with h1 | h2
                · exact hd2 pd h1
                · rw [List.mem_singleton.mp h2]
                  exact ⟨url, rfl, List.mem_cons_self url visited⟩
              · rw [show storeUrls
                    (save_record data { pageDict lib html url with url := some url }) =
                    storeUrls data ++ [some url] from by
                  simp [storeUrls, save_record]]
                rw [List.nodup_append]
                refine ⟨hn, List.nodup_singleton _, ?_⟩
                intro x hx hx2
                rw [List.mem_singleton.mp hx2] at hx
                obtain ⟨pd, hpd, hpu⟩ := List.mem_map.mp hx
                obtain ⟨u, h1, h2⟩ := hd pd hpd
                rw [h1] at hpu
                have : u = url := Option.some.inj hpu
                exact hv (this ▸ h2)
    · rw [scrapeLoop_done lib net base_url delay max_pages n urls visited data scraped hs]
      exact ⟨hd, hn⟩

/-! ## A run whose seed is already visited does nothing -/

theorem scrapeLoop_seed_visited (lib : Libs) (net : String → NetResult) (base_url : String)
    (delay max_pages : Nat) (fuel : Nat) (seed : String) (visited : List String)
    (data : List PageData) (hv : seed ∈ visited) :
    (scrapeLoop lib net base_url delay max_pages fuel [seed] visited data 0).visited_urls =
      visited ∧
    (scrapeLoop lib net base_url delay max_pages fuel [seed] visited data 0).data = data ∧
    (scrapeLoop lib net base_url delay max_pages fuel [seed] visited data 0).trace = [] := by
  cases fuel with
  | zero => rw [scrapeLoop_zero]; exact ⟨rfl, rfl, rfl⟩
  | succ n =>
    by_cases hs : (0 : Nat) < max_pages
    · rw [scrapeLoop_skip lib net base_url delay max_pages n seed [] visited data 0 hs hv]
      rw [scrapeLoop_nil]
      exact ⟨rfl, rfl, rfl⟩
    · rw [scrapeLoop_done lib net base_url delay max_pages n [seed] visited data 0 hs]
      exact ⟨rfl, rfl, rfl⟩

/-! ## Helper: membership to `contains` -/

theorem not_mem_contains_false {l : List String} {a : String} (h : a ∉ l) :
    l.contains a = false := by
  cases hc : l.contains a with
  | false => rfl
  | true => exact absurd (contains_true hc) h

/-! ## Claims -/

/-- C1 (counterexample): the frontier invariant claimed by the spec fails.
On a site whose seed page links to the same on-site URL twice, the pending
queue holds a duplicate after the first iteration, and after the second
iteration the pending queue still holds a URL that is already visited —
`enqueue` checks `visited_urls` but never the pending queue itself. -/
theorem frontier_disjointness_fails :
    frontierInvariantHolds (scrape dupLib dupNet 10 (initScraper "b/" 2) 5).2.obs = false := by
  decide

/-- C1 (amended): what line 98 does guarantee — a link already in
`visited_urls` at the moment of enqueueing is never enqueued.  (The claim's
other half, dedup against the pending queue, is refuted by the
counterexample.) -/
theorem scrape_enqueue_skips_visited (lib : Libs) (net : String → NetResult) (fuel : Nat)
    (s : ScraperState) (max_pages : Nat) :
    enqueueGuardOk s.visited_urls (scrape lib net fuel s max_pages).2.trace = true :=
  scrapeLoop_enqueueGuard lib net s.base_url s.delay max_pages fuel [s.base_url]
    s.visited_urls s.data 0

/-- C2 (counterexample): with `max_pages = 2`, a run in which the seed page
succeeds and links to three on-site pages whose fetches all fail issues
four fetch attempts — `pages_scraped` (line 101) is incremented only on
success, so failed attempts do not count against the budget. -/
theorem fetch_attempts_exceed_budget :
    ¬ (fetchedUrls (scrape fanLib fanNet 10 (initScraper "b/" 2) 2).2.trace).length ≤ 2 := by
  decide

/-- C2 (amended): the budget bounds the number of *successful* page scrapes
(appends to `self.data`, each of which increments `pages_scraped`), not the
number of fetch attempts. -/
theorem scrape_saved_pages_le_budget (lib : Libs) (net : String → NetResult) (fuel : Nat)
    (s : ScraperState) (max_pages : Nat) :
    countSaves (scrape lib net fuel s max_pages).2.trace ≤ max_pages :=
  le_trans
    (scrapeLoop_countSaves lib net s.base_url s.delay max_pages fuel [s.base_url]
      s.visited_urls s.data 0)
    (Nat.sub_le max_pages 0)

/-- C3 (counterexample): on empty (falsy) HTML, `parse_page` returns the
bare empty list `[]` (line 56-57), not a record with
`text`/`links`/`emails` keys. -/
theorem parse_page_empty_html_not_record :
    isRecord (parse_page noLibs "" "b/") = false := by
  decide

/-- C3 (amended): for every *non-empty* HTML string — however malformed,
since BeautifulSoup never raises — `parse_page` returns a dict with the
three keys present, and if the document yields no paragraphs, no anchors
and no email matches, all three collections are empty. -/
theorem parse_page_truthy_is_record (lib : Libs) (html url : String) (hne : html ≠ "") :
    isRecord (parse_page lib html url) = true ∧
    (lib.pTexts html = [] → lib.hrefs html = [] → lib.findEmails html = [] →
      parse_page lib html url = ParseResult.page ⟨[], [], [], none⟩) := by
  constructor
  · simp [parse_page, hne, isRecord]
  · intro h1 h2 h3
    simp [parse_page, hne, pageDict, h1, h2, h3]

/-- C3 (witness): the amended theorem evaluated on the one-character
document `"x"` with libraries that find nothing. -/
theorem parse_page_truthy_is_record_witness :
    isRecord (parse_page noLibs "x" "b/") = true ∧
    parse_page noLibs "x" "b/" = ParseResult.page ⟨[], [], [], none⟩ :=
  ⟨(parse_page_truthy_is_record noLibs "x" "b/" (by decide)).1,
   (parse_page_truthy_is_record noLibs "x" "b/" (by decide)).2 rfl rfl rfl⟩

/-- C4 (counterexample): the store update of line 94 is a plain append,
not an upsert: saving a second record for URL `"b/"` keeps the old entry
and grows the collection from one record to two. -/
theorem save_record_appends_duplicate :
    save_record [⟨["old"], [], [], some "b/"⟩] ⟨["new"], [], [], some "b/"⟩ =
      [⟨["old"], [], [], some "b/"⟩, ⟨["new"], [], [], some "b/"⟩] ∧
    (save_record [⟨["old"], [], [], some "b/"⟩] ⟨["new"], [], [], some "b/"⟩).length = 2 :=
  ⟨rfl, rfl⟩

/-- C4 (amended): duplicates are prevented upstream rather than by the
store: since only URLs absent from `visited_urls` are scraped and every
stored record carries a visited URL, a `scrape` run started from a state
whose records have pairwise distinct visited URLs (e.g. a fresh instance)
never produces two records for the same URL, so re-crawling does not grow
the collection. -/
theorem scrape_store_urls_nodup (lib : Libs) (net : String → NetResult) (fuel : Nat)
    (s : ScraperState) (max_pages : Nat)
    (hd : ∀ pd ∈ s.data, ∃ u, pd.url = some u ∧ u ∈ s.visited_urls)
    (hn : (storeUrls s.data).Nodup) :
    (storeUrls (scrape lib net fuel s max_pages).2.data).Nodup :=
  (scrapeLoop_store lib net s.base_url s.delay max_pages fuel [s.base_url] s.visited_urls
    s.data 0 hd hn).2

/-- C4 (witness): the amended theorem on a fresh instance crawling the
three-link site. -/
theorem scrape_store_urls_nodup_witness :
    (storeUrls (scrape fanLib fanNet 10 (initScraper "b/" 2) 2).2.data).Nodup :=
  scrape_store_urls_nodup fanLib fanNet 10 (initScraper "b/" 2) 2
    (fun pd hpd => absurd hpd (List.not_mem_nil pd)) List.nodup_nil

/-- C5 (confirmed): every URL ever appended to `urls_to_visit` by line 99
passes the `link.startswith(self.base_url)` filter of line 98, so no
enqueued entry lacks the origin site's base-URL prefix. -/
theorem scrape_enqueues_same_site_only (lib : Libs) (net : String → NetResult) (fuel : Nat)
    (s : ScraperState) (max_pages : Nat) :
    (enqueuedUrls (scrape lib net fuel s max_pages).2.trace).all
      (fun u => startswith u s.base_url) = true := by
  rw [List.all_eq_true]
  intro u hu
  exact scrapeLoop_sameSite lib net s.base_url s.delay max_pages fuel [s.base_url]
    s.visited_urls s.data 0 u hu

/-- C6 (confirmed): when the network raises for `url`, `fetch_page`
returns the error value `None` instead of propagating the exception, and
the loop iteration marks `url` visited, emits only the fetch attempt,
leaves `self.data` and `pages_scraped` untouched, and continues with the
remaining frontier — the run neither retries the URL nor aborts. -/
theorem scrape_fetch_failure_skips (lib : Libs) (net : String → NetResult) (base_url : String)
    (delay max_pages fuel scraped : Nat) (url msg : String) (rest visited : List String)
    (data : List PageData) (hv : url ∉ visited) (he : net url = NetResult.err msg)
    (hs : scraped < max_pages) :
    fetch_page net url = none ∧
    scrapeLoop lib net base_url delay max_pages (fuel + 1) (url :: rest) visited data scraped =
      ⟨(scrapeLoop lib net base_url delay max_pages fuel rest (url :: visited) data
          scraped).visited_urls,
       (scrapeLoop lib net base_url delay max_pages fuel rest (url :: visited) data
         scraped).data,
       Event.fetch url ::
         (scrapeLoop lib net base_url delay max_pages fuel rest (url :: visited) data
           scraped).trace,
       (visited, url :: rest) ::
         (scrapeLoop lib net base_url delay max_pages fuel rest (url :: visited) data
           scraped).obs⟩ := by
  have hf : fetch_page net url = none := by simp [fetch_page, he]
  exact ⟨hf, scrapeLoop_fail lib net base_url delay max_pages fuel url rest visited data
    scraped hs hv hf⟩

/-- C6 (witness): a failing URL `"x"` under the concrete network. -/
theorem scrape_fetch_failure_skips_witness :
    fetch_page fanNet "x" = none ∧
    scrapeLoop noLibs fanNet "b/" 2 1 1 ["x"] [] [] 0 =
      ⟨["x"], [], [Event.fetch "x"], [([], ["x"]), (["x"], [])]⟩ :=
  scrape_fetch_failure_skips noLibs fanNet "b/" 2 1 0 0 "x" "boom" [] [] []
    (List.not_mem_nil "x") (by decide) (by decide)

/-- C7 (confirmed): within one run no URL is ever fetched twice — every
fetched URL was outside `visited_urls` when dequeued (line 84 skips
otherwise), is added to `visited_urls` before the fetch (line 87) and is
still in the final `visited_urls`, and the list of fetch attempts has no
duplicates. -/
theorem scrape_fetches_at_most_once (lib : Libs) (net : String → NetResult) (fuel : Nat)
    (s : ScraperState) (max_pages : Nat) :
    (fetchedUrls (scrape lib net fuel s max_pages).2.trace).Nodup ∧
    (fetchedUrls (scrape lib net fuel s max_pages).2.trace).all
      (fun u => (scrape lib net fuel s max_pages).2.visited_urls.contains u &&
        !(s.visited_urls.contains u)) = true := by
  obtain ⟨a, b, c⟩ := scrapeLoop_fetchSound lib net s.base_url s.delay max_pages fuel
    [s.base_url] s.visited_urls s.data 0
  refine ⟨c, ?_⟩
  rw [List.all_eq_true]
  intro u hu
  obtain ⟨h1, h2⟩ := b u hu
  rw [Bool.and_eq_true]
  refine ⟨List.elem_iff.mpr h2, ?_⟩
  rw [Bool.not_eq_true']
  exact not_mem_contains_false h1

/-- C8 (counterexample): no delay separates consecutive fetch attempts
when the earlier attempt failed: `time.sleep` (line 102) sits inside the
`if html:` block, so in the three-failure run the attempts on `"b/b"` and
`"b/c"` follow their predecessors with no sleep between them. -/
theorem delay_between_attempts_fails :
    delaySeparated false (scrape fanLib fanNet 10 (initScraper "b/" 2) 2).2.trace = false := by
  decide

/-- C8 (amended): the delay the code enforces — after every *successful*
fetch (each save), a sleep of exactly the configured delay occurs before
the next fetch attempt; failed attempts are not followed by a delay. -/
theorem scrape_delay_after_each_success (lib : Libs) (net : String → NetResult) (fuel : Nat)
    (s : ScraperState) (max_pages : Nat) :
    delayAfterSuccess false (scrape lib net fuel s max_pages).2.trace = true ∧
    sleepsAre s.delay (scrape lib net fuel s max_pages).2.trace = true :=
  ⟨scrapeLoop_delayAfterSuccess lib net s.base_url s.delay max_pages fuel [s.base_url]
      s.visited_urls s.data 0,
   scrapeLoop_sleepsAre lib net s.base_url s.delay max_pages fuel [s.base_url]
      s.visited_urls s.data 0⟩

/-- C9 (counterexample): in the three-link run the trace contains
`save "b/"` immediately followed by the enqueues of that page's links —
line 94 appends the record *before* lines 96-99 enqueue the discovered
links, so discovery does not precede persistence. -/
theorem enqueue_before_persist_fails :
    noEnqueueAfterSave false (scrape fanLib fanNet 10 (initScraper "b/" 2) 2).2.trace =
      false := by
  decide

/-- C9 (amended): the order the code actually follows in every successful
step: the page's record is appended to `self.data` first, and the newly
discovered same-site links are enqueued afterwards (no enqueue ever occurs
between a fetch and the save of its page). -/
theorem scrape_persist_before_enqueue (lib : Libs) (net : String → NetResult) (fuel : Nat)
    (s : ScraperState) (max_pages : Nat) :
    saveBeforeEnqueues false (scrape lib net fuel s max_pages).2.trace = true :=
  scrapeLoop_saveBeforeEnqueues lib net s.base_url s.delay max_pages fuel [s.base_url]
    s.visited_urls s.data 0 false

/-- C10 (confirmed): `visited_urls` and `data` are instance attributes, so
when `scrape` is called again after the seed has been visited, the seed is
popped, found visited and skipped, the frontier empties, and the method
returns with no fetch attempt, the instance state unchanged and the same
accumulated `data`. -/
theorem scrape_noop_when_seed_visited (lib : Libs) (net : String → NetResult) (fuel : Nat)
    (s : ScraperState) (max_pages : Nat) (h : s.base_url ∈ s.visited_urls) :
    (scrape lib net fuel s max_pages).1 = s ∧
    (scrape lib net fuel s max_pages).2.data = s.data ∧
    (scrape lib net fuel s max_pages).2.trace = [] := by
  rcases s with ⟨b, dl, v, d⟩
  obtain ⟨h1, h2, h3⟩ := scrapeLoop_seed_visited lib net b dl max_pages fuel b v d h
  refine ⟨?_, h2, h3⟩
  have hform : (scrape lib net fuel ⟨b, dl, v, d⟩ max_pages).1 =
      ⟨b, dl, (scrapeLoop lib net b dl max_pages fuel [b] v d 0).visited_urls,
       (scrapeLoop lib net b dl max_pages fuel [b] v d 0).data⟩ := rfl
  rw [hform, h1, h2]

/-- C10 (witness): a second run on an instance that has already visited
its seed. -/
theorem scrape_noop_when_seed_visited_witness :
    (scrape noLibs fanNet 4 ⟨"b/", 2, ["b/"], []⟩ 5).1 = ⟨"b/", 2, ["b/"], []⟩ ∧
    (scrape noLibs fanNet 4 ⟨"b/", 2, ["b/"], []⟩ 5).2.data = [] ∧
    (scrape noLibs fanNet 4 ⟨"b/", 2, ["b/"], []⟩ 5).2.trace = [] :=
  scrape_noop_when_seed_visited noLibs fanNet 4 ⟨"b/", 2, ["b/"], []⟩ 5
    (List.mem_singleton.mpr rfl)

end WebScraper
